import Mathlib

/-!
Shallow embedding of the AEMMT multi-objective knapsack solver
(src/main.cpp) and proofs of the specified properties.

Modelling conventions:
- C++ doubles are modelled as exact rationals.
- The mt19937 engine seeded at construction is modelled as an abstract
  draw sequence, a function from draw index to a rational raw value;
  a seed determines such a sequence, and the sequence is threaded
  explicitly through every operator, mirroring the single rng member.
- uniform_real_distribution(lo, hi) applied to the engine is modelled by
  mapping the raw value into the interval: lo + (hi - lo) * frac(raw).
- uniform_int_distribution(lo, hi) is modelled by lo + floor(raw) mod
  (hi + 1 - lo); when hi < lo the C++ distribution has undefined
  behaviour (the empty-range case relevant to crossover with at most
  one item).
- std::sort with a strict comparator cmp yields a list in which, for any
  consecutive a then b, cmp b a is false; it is modelled by a merge sort
  with the exact complement comparator. The relative order of elements
  the comparator cannot distinguish is unspecified by the C++ standard.
-/

-- Global configuration constants (main.cpp lines 17-19)
def NUM_OBJECTIVES : ℕ := 3
def SUBPOP_COUNT : ℕ := 3
def capacityRatio : ℚ := 1 / 2

-- Item (main.cpp lines 25-30)
structure Item where
  id : ℕ
  weight : ℚ
  profits : List ℚ
  ratios : List ℚ
  deriving DecidableEq, Inhabited

-- Individual (main.cpp lines 32-46)
structure Individual where
  chromosome : List Bool
  fitness : List ℚ
  total_weight : ℚ
  valid : Bool
  deriving DecidableEq, Inhabited

/-- Constructor Individual(int num_items = 0), main.cpp lines 38-45. -/
def Individual.init (num_items : ℕ) : Individual :=
  if 0 < num_items then
    { chromosome := List.replicate num_items false
      fitness := List.replicate NUM_OBJECTIVES 0
      total_weight := 0
      valid := false }
  else
    { chromosome := [], fitness := [], total_weight := 0, valid := false }

/-- Reading items[i].weight. -/
def itemWeight (items : List Item) (i : ℕ) : ℚ := (items.getD i default).weight

/-- Reading items[i].profits[o]. -/
def profitAt (items : List Item) (i o : ℕ) : ℚ := ((items.getD i default).profits).getD o 0

/-- Reading items[i].ratios[o]. -/
def ratioAt (items : List Item) (i o : ℕ) : ℚ := ((items.getD i default).ratios).getD o 0

/-- Sum of the ratios of item i over the objectives, as accumulated by the
repair comparator loop (main.cpp lines 138-143). -/
def aggRatioSum (items : List Item) (i : ℕ) : ℚ :=
  ((List.range NUM_OBJECTIVES).map (ratioAt items i)).sum

/-- The comparator passed to sort in the greedy repair
(main.cpp lines 137-145): strictly smaller aggregate ratio first. -/
def repairCmp (items : List Item) (a b : ℕ) : Bool :=
  decide (aggRatioSum items a < aggRatioSum items b)

/-- Indices of currently included items, in ascending index order:
the items_in_bag vector of main.cpp lines 131-134, and also the index set
walked by the evaluation loop of lines 120-127. -/
def itemsInBag (items : List Item) (chrom : List Bool) : List ℕ :=
  (List.range items.length).filter (fun i => chrom.getD i false)

/-- Total weight of the included items (main.cpp line 122). -/
def includedWeight (items : List Item) (chrom : List Bool) : ℚ :=
  ((itemsInBag items chrom).map (itemWeight items)).sum

/-- Per-objective profit of the included items (main.cpp line 124). -/
def includedProfit (items : List Item) (chrom : List Bool) (o : ℕ) : ℚ :=
  ((itemsInBag items chrom).map (fun i => profitAt items i o)).sum

/-- The sorted items_in_bag list after the sort call of main.cpp
lines 137-145: sorted so that no later element compares strictly below an
earlier one under repairCmp. -/
def sortedBag (items : List Item) (chrom : List Bool) : List ℕ :=
  (itemsInBag items chrom).mergeSort (fun a b => !(repairCmp items b a))

/-- One removal step of the repair loop body (main.cpp lines 151-155):
clear the inclusion bit of id, subtract its weight and its per-objective
profits. -/
def removeItem (items : List Item) (ind : Individual) (id : ℕ) : Individual :=
  { ind with
    chromosome := ind.chromosome.set id false
    total_weight := ind.total_weight - itemWeight items id
    fitness := (List.range NUM_OBJECTIVES).map (fun o => ind.fitness.getD o 0 - profitAt items id o) }

/-- The removal loop of main.cpp lines 148-156: walk the sorted bag,
stopping as soon as the running weight fits the capacity. -/
def removeLoop (items : List Item) (cap : ℚ) : List ℕ → Individual → Individual
  | [], ind => ind
  | id :: rest, ind =>
    if ind.total_weight ≤ cap then ind
    else removeLoop items cap rest (removeItem items ind id)

/-- AMMTSolver::evaluate_and_repair (main.cpp lines 115-159): recompute
weight and fitness from the inclusion vector, run the greedy repair when
over capacity, then mark the individual valid. -/
def evaluate_and_repair (items : List Item) (max_capacity : ℚ) (ind0 : Individual) : Individual :=
  let w := includedWeight items ind0.chromosome
  let fit := (List.range NUM_OBJECTIVES).map (includedProfit items ind0.chromosome)
  let ind1 : Individual := { ind0 with total_weight := w, fitness := fit }
  let ind2 :=
    if max_capacity < w then removeLoop items max_capacity (sortedBag items ind0.chromosome) ind1
    else ind1
  { ind2 with valid := true }

/-- Reading ind.fitness[o]. -/
def fitnessAt (ind : Individual) (o : ℕ) : ℚ := ind.fitness.getD o 0

/-- AMMTSolver::tournament_selection (main.cpp lines 176-188) with the two
drawn slot indices made explicit: k = 2, so exactly one challenger is
compared against the first draw, and the challenger wins only on a
strictly greater fitness in the designated objective. -/
def tournament_selection (pop : List Individual) (obj i1 i2 : ℕ) : Individual :=
  let best := pop.getD i1 default
  let challenger := pop.getD i2 default
  if fitnessAt best obj < fitnessAt challenger obj then challenger else best

/-- The fitness sum over the population in one objective
(main.cpp lines 192-193). -/
def totalFitness (pop : List Individual) (obj : ℕ) : ℚ :=
  (pop.map (fun ind => fitnessAt ind obj)).sum

/-- The accumulation walk of roulette selection (main.cpp lines 196-201):
return the first individual whose running fitness total reaches the spin. -/
def rouletteWalk (obj : ℕ) (spin : ℚ) (fallback : Individual) :
    List Individual → ℚ → Individual
  | [], _ => fallback
  | ind :: rest, current =>
    let current' := current + fitnessAt ind obj
    if spin ≤ current' then ind else rouletteWalk obj spin fallback rest current'

/-- AMMTSolver::roulette_selection (main.cpp lines 191-203) with the spin
value made explicit; the fallback return of line 202 is population.back(). -/
def roulette_selection (pop : List Individual) (obj : ℕ) (spin : ℚ) : Individual :=
  rouletteWalk obj spin (pop.getLastD default) pop 0

/-- AMMTSolver::crossover (main.cpp lines 207-221) with the drawn cut
point made explicit: gene i of child one comes from parent one below the
point and from parent two at the point and beyond, and symmetrically for
child two; children are fresh Individual(num_items) records. -/
def crossover (num_items : ℕ) (p1 p2 : Individual) (point : ℕ) :
    Individual × Individual :=
  ({ Individual.init num_items with
      chromosome := (List.range num_items).map
        (fun i => if i < point then p1.chromosome.getD i false else p2.chromosome.getD i false) },
   { Individual.init num_items with
      chromosome := (List.range num_items).map
        (fun i => if i < point then p2.chromosome.getD i false else p1.chromosome.getD i false) })

/-- Validity of a value k for uniform_int_distribution(1, num_items - 1)
as drawn at main.cpp line 209: the distribution requires a nonempty range
and produces values in it. -/
def cutPointValid (num_items k : ℕ) : Bool :=
  1 ≤ k && k ≤ num_items - 1

-- ============================================================
-- Pseudorandom stream model
-- ============================================================

/-- The engine state: the raw draw sequence fixed by the seed, plus the
index of the next draw. -/
structure RNG where
  stream : ℕ → ℚ
  idx : ℕ

/-- One engine draw. -/
def RNG.next (r : RNG) : ℚ × RNG :=
  (r.stream r.idx, { r with idx := r.idx + 1 })

/-- Fractional part of a rational. -/
def fracPart (q : ℚ) : ℚ := q - ⌊q⌋

/-- Model of uniform_real_distribution(lo, hi) applied to one raw draw. -/
def drawReal (lo hi raw : ℚ) : ℚ := lo + (hi - lo) * fracPart raw

/-- Model of uniform_int_distribution(lo, hi) applied to one raw draw;
meaningful only when lo ≤ hi, matching the C++ precondition. -/
def drawInt (lo hi : ℕ) (raw : ℚ) : ℕ :=
  lo + (Int.toNat ⌊raw⌋) % (hi + 1 - lo)

-- ============================================================
-- Solver state and the generational loop
-- ============================================================

/-- The private state of AMMTSolver (main.cpp lines 51-68); the logging
members are omitted as they never feed back into the evolution. -/
structure SolverState where
  num_items : ℕ
  pop_size : ℕ
  selection_method : ℤ
  mutation_rate : ℚ
  elitism_rate : ℚ
  max_capacity : ℚ
  items : List Item
  population : List Individual
  rng : RNG

/-- The profit-drawing loop of generate_instance (main.cpp lines 102-107):
one real draw per objective. -/
def genProfits (r : RNG) : List ℚ × RNG :=
  (List.range NUM_OBJECTIVES).foldl
    (fun acc _ =>
      let (praw, r') := RNG.next acc.2
      (acc.1 ++ [drawReal 10 100 praw], r'))
    ([], r)

/-- One iteration of the item loop of generate_instance
(main.cpp lines 97-109). -/
def genItem (r : RNG) (i : ℕ) : Item × RNG :=
  let (wraw, r1) := RNG.next r
  let w := drawReal 10 100 wraw
  let (ps, r2) := genProfits r1
  ({ id := i, weight := w, profits := ps, ratios := ps.map (fun p => p / w) }, r2)

/-- The item loop of generate_instance (main.cpp lines 94-111). -/
def genItems (r : RNG) (n : ℕ) : List Item × RNG :=
  (List.range n).foldl
    (fun acc i =>
      let (it, r') := genItem acc.2 i
      (acc.1 ++ [it], r'))
    ([], r)

/-- The constructor AMMTSolver (main.cpp lines 71-84): record the
parameters unchecked, fix pop_size = 90, seed the engine (abstracted by
the stream argument) and generate the instance; the capacity is half the
total item weight (main.cpp line 110 with CAPACITY_RATIO). -/
def mkSolver (items_n : ℕ) (sel_method : ℤ) (mut_rate elit_rate : ℚ)
    (stream : ℕ → ℚ) : SolverState :=
  let r0 : RNG := { stream := stream, idx := 0 }
  let (its, r1) := genItems r0 items_n
  { num_items := items_n
    pop_size := 90
    selection_method := sel_method
    mutation_rate := mut_rate
    elitism_rate := elit_rate
    max_capacity := ((its.map Item.weight).sum) * capacityRatio
    items := its
    population := []
    rng := r1 }

/-- The per-gene fair-coin loop of init_population
(main.cpp lines 165-169). -/
def genChromosome (r : RNG) (n : ℕ) : List Bool × RNG :=
  (List.range n).foldl
    (fun acc _ =>
      let (raw, r') := RNG.next acc.2
      (acc.1 ++ [decide (drawReal 0 1 raw < 1 / 2)], r'))
    ([], r)

/-- AMMTSolver::init_population (main.cpp lines 161-173). -/
def init_population (st : SolverState) : SolverState :=
  let built := (List.range st.pop_size).foldl
    (fun (acc : List Individual × RNG) _ =>
      let (chrom, r1) := genChromosome acc.2 st.num_items
      let ind := evaluate_and_repair st.items st.max_capacity
        { Individual.init st.num_items with chromosome := chrom }
      (acc.1 ++ [ind], r1))
    ([], st.rng)
  { st with population := built.1, rng := built.2 }

/-- AMMTSolver::mutate (main.cpp lines 224-230): one real draw per gene,
flipping the bit when the draw falls below the mutation rate. -/
def mutateM (st : SolverState) (ind : Individual) (r : RNG) : Individual × RNG :=
  (List.range st.num_items).foldl
    (fun acc i =>
      let (raw, r') := RNG.next acc.2
      (if drawReal 0 1 raw < st.mutation_rate then
        { acc.1 with chromosome := acc.1.chromosome.set i (!(acc.1.chromosome.getD i false)) }
      else acc.1, r'))
    (ind, r)

/-- tournament_selection with its two slot draws taken from the engine
(main.cpp lines 176-188). -/
def tournamentM (st : SolverState) (obj : ℕ) (r : RNG) : Individual × RNG :=
  let (raw1, r1) := RNG.next r
  let i1 := drawInt 0 (st.pop_size - 1) raw1
  let (raw2, r2) := RNG.next r1
  let i2 := drawInt 0 (st.pop_size - 1) raw2
  (tournament_selection st.population obj i1 i2, r2)

/-- roulette_selection with its spin drawn from the engine
(main.cpp lines 191-203). -/
def rouletteM (st : SolverState) (obj : ℕ) (r : RNG) : Individual × RNG :=
  let tf := totalFitness st.population obj
  let (raw, r1) := RNG.next r
  (roulette_selection st.population obj (drawReal 0 tf raw), r1)

/-- The parent-selection dispatch of the run loop (main.cpp lines
274-280): method value 1 selects roulette, every other value takes the
else branch, tournament. -/
def selectParentM (st : SolverState) (obj : ℕ) (r : RNG) : Individual × RNG :=
  if st.selection_method = 1 then rouletteM st obj r else tournamentM st obj r

/-- crossover with its cut point drawn from the engine
(main.cpp line 209). -/
def crossoverM (st : SolverState) (p1 p2 : Individual) (r : RNG) :
    (Individual × Individual) × RNG :=
  let (raw, r1) := RNG.next r
  (crossover st.num_items p1 p2 (drawInt 1 (st.num_items - 1) raw), r1)

/-- One pair-production step of the run loop body (main.cpp lines
270-294): select two parents, recombine, then mutate and repair each
child in order. -/
def breedPair (st : SolverState) (obj : ℕ) (r : RNG) :
    (Individual × Individual) × RNG :=
  let (p1, r1) := selectParentM st obj r
  let (p2, r2) := selectParentM st obj r1
  let (cs, r3) := crossoverM st p1 p2 r2
  let (m1, r4) := mutateM st cs.1 r3
  let c1 := evaluate_and_repair st.items st.max_capacity m1
  let (m2, r5) := mutateM st cs.2 r4
  let c2 := evaluate_and_repair st.items st.max_capacity m2
  ((c1, c2), r5)

/-- The inner pair loop for one objective (main.cpp lines 268-295):
pairs_needed = subpop_size / 2 iterations, each appending two children. -/
def objectiveRound (st : SolverState) (obj : ℕ) (acc : List Individual × RNG) :
    List Individual × RNG :=
  (List.range (st.pop_size / SUBPOP_COUNT / 2)).foldl
    (fun a _ =>
      let (cs, r') := breedPair st obj a.2
      (a.1 ++ [cs.1, cs.2], r'))
    acc

/-- The offspring buffer built by one generation, before padding
(main.cpp lines 263-295): the objective loop over 0, 1, 2. -/
def offspringPass (st : SolverState) : List Individual × RNG :=
  (List.range NUM_OBJECTIVES).foldl (fun a obj => objectiveRound st obj a) ([], st.rng)

/-- The padding loop of main.cpp line 297: append copies of population
slot 0 until the buffer reaches pop_size. -/
def padWhile (size : ℕ) (buf : List Individual) (filler : Individual) : List Individual :=
  buf ++ List.replicate (size - buf.length) filler

/-- One generation of the run loop (main.cpp lines 237-300); the logging
block reads the population only and consumes no randomness, so it does
not appear in the state transition. -/
def stepGeneration (st : SolverState) : SolverState :=
  let (buf, r') := offspringPass st
  { st with
    population := padWhile st.pop_size buf (st.population.getD 0 default)
    rng := r' }

/-- AMMTSolver::run up to generation bound g (main.cpp lines 233-302):
initialize the population, then apply g generations. -/
def runModel (st : SolverState) (g : ℕ) : SolverState :=
  (List.range g).foldl (fun s _ => stepGeneration s) (init_population st)

-- ============================================================
-- Helper lemmas
-- ============================================================

/-- Reading index i of a tabulated list of length n. -/
theorem getD_map_range {α : Type} (f : ℕ → α) {n i : ℕ} (hi : i < n) (d : α) :
    ((List.range n).map f).getD i d = f i := by
  rw [List.getD_eq_getElem?_getD, List.getElem?_map, List.getElem?_range hi]
  rfl

/-- The sorted bag is a permutation of the bag. -/
theorem sortedBag_perm (items : List Item) (chrom : List Bool) :
    (sortedBag items chrom).Perm (itemsInBag items chrom) :=
  List.mergeSort_perm _ _

/-- Sorting the bag does not change the total weight of its items. -/
theorem sortedBag_weight_sum (items : List Item) (chrom : List Bool) :
    ((sortedBag items chrom).map (itemWeight items)).sum = includedWeight items chrom :=
  List.Perm.sum_eq (List.Perm.map (itemWeight items) (sortedBag_perm items chrom))

/-- The removal loop either stops at or below the capacity, or runs off
the end of its list having subtracted every listed weight. -/
theorem removeLoop_weight (items : List Item) (cap : ℚ) :
    ∀ (l : List ℕ) (ind : Individual),
      (removeLoop items cap l ind).total_weight ≤ cap ∨
      (removeLoop items cap l ind).total_weight
        = ind.total_weight - ((l.map (itemWeight items)).sum) := by
  intro l
  induction l with
  | nil => intro ind; right; simp [removeLoop]
  | cons id rest ih =>
    intro ind
    by_cases h : ind.total_weight ≤ cap
    · left; simp [removeLoop, h]
    · rcases ih (removeItem items ind id) with h1 | h1
      · left; simpa [removeLoop, h] using h1
      · right
        rw [removeLoop, if_neg h, h1]
        simp [removeItem]
        ring

-- ============================================================
-- C1
-- ============================================================

/-- C1: evaluate_and_repair always returns an individual whose validity
flag is true and whose total weight is at most the capacity, for every
inclusion vector; the capacity of any generated instance is nonnegative
(half of a sum of positive weights), stated here as the hypothesis. -/
theorem repair_sets_valid_and_respects_capacity (items : List Item) (cap : ℚ)
    (ind : Individual) (hcap : 0 ≤ cap) :
    (evaluate_and_repair items cap ind).valid = true ∧
    (evaluate_and_repair items cap ind).total_weight ≤ cap := by
  constructor
  · simp only [evaluate_and_repair]
  · simp only [evaluate_and_repair]
    by_cases h : cap < includedWeight items ind.chromosome
    · rw [if_pos h]
      rcases removeLoop_weight items cap (sortedBag items ind.chromosome)
          { ind with
            total_weight := includedWeight items ind.chromosome
            fitness := (List.range NUM_OBJECTIVES).map (includedProfit items ind.chromosome) }
        with h1 | h1
      · exact h1
      · rw [h1]
        simp [sortedBag_weight_sum]
        exact hcap
    · rw [if_neg h]
      simpa using le_of_not_lt h

/-- A concrete one-item instance used by witnesses. -/
def heavyItem : Item := { id := 0, weight := 10, profits := [5, 5, 5], ratios := [1/2, 1/2, 1/2] }

/-- A concrete individual carrying the heavy item. -/
def heavyInd : Individual :=
  { chromosome := [true], fitness := [0, 0, 0], total_weight := 0, valid := false }

/-- Witness for C1 at a concrete one-item instance whose sole inclusion
vector is over capacity. -/
theorem repair_sets_valid_and_respects_capacity_witness :
    (0 : ℚ) ≤ 5 ∧
    ((evaluate_and_repair [heavyItem] 5 heavyInd).valid = true ∧
     (evaluate_and_repair [heavyItem] 5 heavyInd).total_weight ≤ 5) :=
  ⟨by norm_num,
   repair_sets_valid_and_respects_capacity [heavyItem] 5 heavyInd (by norm_num)⟩

-- ============================================================
-- C4
-- ============================================================

/-- C4: one-point crossover with cut point k in the valid range copies
parent-one genes below k and parent-two genes from k on into child one,
the complementary assignment into child two, and both children start
invalid with zeroed fitness and weight. -/
theorem crossover_gene_conservation (n : ℕ) (p1 p2 : Individual) (k : ℕ)
    (hk1 : 1 ≤ k) (hk2 : k ≤ n - 1) :
    (∀ i, i < k → (crossover n p1 p2 k).1.chromosome.getD i false = p1.chromosome.getD i false) ∧
    (∀ i, k ≤ i → i < n → (crossover n p1 p2 k).1.chromosome.getD i false = p2.chromosome.getD i false) ∧
    (∀ i, i < k → (crossover n p1 p2 k).2.chromosome.getD i false = p2.chromosome.getD i false) ∧
    (∀ i, k ≤ i → i < n → (crossover n p1 p2 k).2.chromosome.getD i false = p1.chromosome.getD i false) ∧
    (crossover n p1 p2 k).1.valid = false ∧ (crossover n p1 p2 k).2.valid = false ∧
    (crossover n p1 p2 k).1.fitness = List.replicate NUM_OBJECTIVES 0 ∧
    (crossover n p1 p2 k).2.fitness = List.replicate NUM_OBJECTIVES 0 ∧
    (crossover n p1 p2 k).1.total_weight = 0 ∧
    (crossover n p1 p2 k).2.total_weight = 0 := by
  have hn : 0 < n := by omega
  have hc1 : (crossover n p1 p2 k).1.chromosome = (List.range n).map
      (fun j => if j < k then p1.chromosome.getD j false else p2.chromosome.getD j false) := rfl
  have hc2 : (crossover n p1 p2 k).2.chromosome = (List.range n).map
      (fun j => if j < k then p2.chromosome.getD j false else p1.chromosome.getD j false) := rfl
  refine ⟨?_, ?_, ?_, ?_, ?_, ?_, ?_, ?_, ?_, ?_⟩
  · intro i hik
    have hin : i < n := by omega
    rw [hc1, getD_map_range _ hin, if_pos hik]
  · intro i hki hin
    have hnk : ¬ i < k := by omega
    rw [hc1, getD_map_range _ hin, if_neg hnk]
  · intro i hik
    have hin : i < n := by omega
    rw [hc2, getD_map_range _ hin, if_pos hik]
  · intro i hki hin
    have hnk : ¬ i < k := by omega
    rw [hc2, getD_map_range _ hin, if_neg hnk]
  · simp [crossover, Individual.init, hn]
  · simp [crossover, Individual.init, hn]
  · simp [crossover, Individual.init, hn]
  · simp [crossover, Individual.init, hn]
  · simp [crossover, Individual.init, hn]
  · simp [crossover, Individual.init, hn]

/-- Witness for C4 with two items and cut point 1. -/
theorem crossover_gene_conservation_witness :
    1 ≤ 1 ∧ 1 ≤ 2 - 1 ∧
    ((crossover 2
      { chromosome := [true, true], fitness := [0, 0, 0], total_weight := 0, valid := false }
      { chromosome := [false, false], fitness := [0, 0, 0], total_weight := 0, valid := false }
      1).1.chromosome.getD 0 false = true) :=
  ⟨le_refl 1, by norm_num,
   (crossover_gene_conservation 2 _ _ 1 (le_refl 1) (by norm_num)).1 0 (by norm_num)⟩

-- ============================================================
-- C6
-- ============================================================

/-- C6: tournament selection on two drawn slots returns the challenger
exactly when its fitness in the designated objective is strictly greater,
otherwise the first-drawn candidate (covering ties and a repeated slot),
and the returned individual is a member of the population, which the
operator never modifies. -/
theorem tournament_selection_spec (pop : List Individual) (obj i1 i2 : ℕ)
    (h1 : i1 < pop.length) (h2 : i2 < pop.length) :
    (fitnessAt (pop.getD i1 default) obj < fitnessAt (pop.getD i2 default) obj →
      tournament_selection pop obj i1 i2 = pop.getD i2 default) ∧
    (fitnessAt (pop.getD i2 default) obj ≤ fitnessAt (pop.getD i1 default) obj →
      tournament_selection pop obj i1 i2 = pop.getD i1 default) ∧
    tournament_selection pop obj i1 i2 ∈ pop := by
  have ht : tournament_selection pop obj i1 i2 =
      if fitnessAt (pop.getD i1 default) obj < fitnessAt (pop.getD i2 default) obj
      then pop.getD i2 default else pop.getD i1 default := rfl
  refine ⟨?_, ?_, ?_⟩
  · intro h; rw [ht, if_pos h]
  · intro h; rw [ht, if_neg (not_lt.mpr h)]
  · rw [ht]
    by_cases h : fitnessAt (pop.getD i1 default) obj < fitnessAt (pop.getD i2 default) obj
    · rw [if_pos h, List.getD_eq_getElem pop default h2]
      exact List.getElem_mem h2
    · rw [if_neg h, List.getD_eq_getElem pop default h1]
      exact List.getElem_mem h1

/-- Witness for C6 on a concrete two-member population. -/
theorem tournament_selection_spec_witness :
    0 < 2 ∧ 1 < 2 ∧
    tournament_selection
      [{ chromosome := [true], fitness := [1, 0, 0], total_weight := 1, valid := true },
       { chromosome := [false], fitness := [2, 0, 0], total_weight := 0, valid := true }]
      0 0 1 ∈
      [{ chromosome := [true], fitness := [1, 0, 0], total_weight := 1, valid := true },
       { chromosome := [false], fitness := [2, 0, 0], total_weight := 0, valid := true }] :=
  ⟨by norm_num, by norm_num,
   (tournament_selection_spec _ 0 0 1 (by norm_num) (by norm_num)).2.2⟩

-- ============================================================
-- C7
-- ============================================================

/-- C7: for item counts 0 and 1 the cut-point distribution range
[1, num_items - 1] is empty, so no valid cut point exists; the code draws
from it unconditionally (undefined behaviour) instead of skipping
crossover and returning the parents. -/
theorem crossover_cut_range_empty_for_trivial :
    (∀ k, cutPointValid 1 k = false) ∧ (∀ k, cutPointValid 0 k = false) := by
  constructor <;> intro k <;> simp [cutPointValid] <;> omega

-- ============================================================
-- C2: consistency of weight and fitness through the repair
-- ============================================================

/-- A true inclusion bit lies within the chromosome. -/
theorem getD_true_lt_length {l : List Bool} {i : ℕ} (h : l.getD i false = true) :
    i < l.length := by
  by_contra hge
  push_neg at hge
  rw [List.getD_eq_getElem?_getD, List.getElem?_eq_none hge] at h
  simp at h

/-- The bag of included indices has no duplicates. -/
theorem itemsInBag_nodup (items : List Item) (chrom : List Bool) :
    (itemsInBag items chrom).Nodup :=
  (List.nodup_range _).filter _

/-- Bag membership characterised. -/
theorem mem_itemsInBag {items : List Item} {chrom : List Bool} {i : ℕ} :
    i ∈ itemsInBag items chrom ↔ i < items.length ∧ chrom.getD i false = true := by
  simp [itemsInBag, List.mem_filter, List.mem_range]

/-- Clearing one included bit filters exactly that index out of the bag. -/
theorem itemsInBag_set_false (items : List Item) (chrom : List Bool) (id : ℕ)
    (hid : chrom.getD id false = true) :
    itemsInBag items (chrom.set id false)
      = (itemsInBag items chrom).filter (fun j => j != id) := by
  have hlt : id < chrom.length := getD_true_lt_length hid
  unfold itemsInBag
  rw [List.filter_filter]
  apply List.filter_congr
  intro j _
  by_cases hje : j = id
  · subst hje
    rw [List.getD_eq_getElem?_getD, List.getElem?_set_self hlt]
    simp
  · rw [List.getD_eq_getElem?_getD, List.getElem?_set_ne (fun he => hje he.symm),
      ← List.getD_eq_getElem?_getD]
    simp [hje]

/-- Membership in the bag after clearing a bit. -/
theorem mem_itemsInBag_set_false {items : List Item} {chrom : List Bool} {id j : ℕ}
    (hid : chrom.getD id false = true) :
    j ∈ itemsInBag items (chrom.set id false) ↔ j ∈ itemsInBag items chrom ∧ j ≠ id := by
  rw [itemsInBag_set_false items chrom id hid, List.mem_filter]
  simp

/-- Removing one occurrence from a duplicate-free list subtracts its
mapped value from the mapped sum. -/
theorem sum_map_filter_ne (f : ℕ → ℚ) (l : List ℕ) (a : ℕ)
    (hnd : l.Nodup) (hmem : a ∈ l) :
    ((l.filter (fun x => x != a)).map f).sum = (l.map f).sum - f a := by
  have h2 : (l.map f).sum = f a + (((l.erase a).map f).sum) := by
    simpa using (((List.perm_cons_erase hmem).map f).sum_eq)
  rw [← hnd.erase_eq_filter a, h2]
  ring

/-- Weight bookkeeping for one bit clearing. -/
theorem includedWeight_set_false (items : List Item) (chrom : List Bool) (id : ℕ)
    (hbag : id ∈ itemsInBag items chrom) :
    includedWeight items (chrom.set id false)
      = includedWeight items chrom - itemWeight items id := by
  unfold includedWeight
  rw [itemsInBag_set_false items chrom id (mem_itemsInBag.mp hbag).2,
    sum_map_filter_ne _ _ _ (itemsInBag_nodup items chrom) hbag]

/-- Profit bookkeeping for one bit clearing. -/
theorem includedProfit_set_false (items : List Item) (chrom : List Bool) (id o : ℕ)
    (hbag : id ∈ itemsInBag items chrom) :
    includedProfit items (chrom.set id false) o
      = includedProfit items chrom o - profitAt items id o := by
  unfold includedProfit
  rw [itemsInBag_set_false items chrom id (mem_itemsInBag.mp hbag).2,
    sum_map_filter_ne _ _ _ (itemsInBag_nodup items chrom) hbag]

/-- The bookkeeping invariant of the repair: the cached weight and the
cached fitness vector agree with the sums over the included items. -/
def Consistent (items : List Item) (ind : Individual) : Prop :=
  ind.total_weight = includedWeight items ind.chromosome ∧
  ind.fitness = (List.range NUM_OBJECTIVES).map (includedProfit items ind.chromosome)

/-- One removal step preserves the bookkeeping invariant. -/
theorem removeItem_consistent (items : List Item) (ind : Individual) (id : ℕ)
    (hbag : id ∈ itemsInBag items ind.chromosome) (h : Consistent items ind) :
    Consistent items (removeItem items ind id) := by
  obtain ⟨hw, hf⟩ := h
  constructor
  · show ind.total_weight - itemWeight items id
      = includedWeight items (ind.chromosome.set id false)
    rw [includedWeight_set_false items ind.chromosome id hbag, hw]
  · show (List.range NUM_OBJECTIVES).map (fun o => ind.fitness.getD o 0 - profitAt items id o)
      = (List.range NUM_OBJECTIVES).map (includedProfit items (ind.chromosome.set id false))
    apply List.map_congr_left
    intro o ho
    rw [List.mem_range] at ho
    rw [hf, getD_map_range _ ho, includedProfit_set_false items ind.chromosome id o hbag]

/-- The removal loop preserves the bookkeeping invariant whenever it is
fed a duplicate-free list of currently included indices, which is exactly
how the repair calls it. -/
theorem removeLoop_consistent (items : List Item) (cap : ℚ) :
    ∀ (l : List ℕ) (ind : Individual), l.Nodup →
      (∀ id ∈ l, id ∈ itemsInBag items ind.chromosome) →
      Consistent items ind →
      Consistent items (removeLoop items cap l ind) := by
  intro l
  induction l with
  | nil => intro ind _ _ h; simpa [removeLoop] using h
  | cons id rest ih =>
    intro ind hnd hmem h
    by_cases hle : ind.total_weight ≤ cap
    · simpa [removeLoop, hle] using h
    · have hid : id ∈ itemsInBag items ind.chromosome := hmem id (List.mem_cons_self id rest)
      have hstep : Consistent items (removeLoop items cap rest (removeItem items ind id)) := by
        apply ih
        · exact hnd.of_cons
        · intro j hj
          have hjbag := hmem j (List.mem_cons_of_mem id hj)
          have hjne : j ≠ id := by
            intro he; subst he
            exact (List.nodup_cons.mp hnd).1 hj
          show j ∈ itemsInBag items (ind.chromosome.set id false)
          rw [mem_itemsInBag_set_false (mem_itemsInBag.mp hid).2]
          exact ⟨hjbag, hjne⟩
        · exact removeItem_consistent items ind id hid h
      simpa [removeLoop, hle] using hstep

/-- Consistency is untouched by setting the validity flag. -/
theorem consistent_valid_update (items : List Item) (x : Individual) (b : Bool)
    (h : Consistent items x) : Consistent items { x with valid := b } :=
  ⟨h.1, h.2⟩

/-- The repair evaluator always returns a consistent individual. -/
theorem repair_consistent (items : List Item) (cap : ℚ) (ind : Individual) :
    Consistent items (evaluate_and_repair items cap ind) := by
  simp only [evaluate_and_repair]
  by_cases h : cap < includedWeight items ind.chromosome
  · rw [if_pos h]
    apply consistent_valid_update
    apply removeLoop_consistent
    · exact ((sortedBag_perm items ind.chromosome).nodup_iff).mpr
        (itemsInBag_nodup items ind.chromosome)
    · intro id hidmem
      exact ((sortedBag_perm items ind.chromosome).mem_iff).mp hidmem
    · exact ⟨rfl, rfl⟩
  · rw [if_neg h]
    exact consistent_valid_update _ _ _ ⟨rfl, rfl⟩

/-- C2: after evaluate_and_repair, the fitness in every objective equals
the profit sum of the currently included items, and the total weight
equals their weight sum. -/
theorem repair_fitness_weight_consistency (items : List Item) (cap : ℚ) (ind : Individual) :
    (∀ o, o < NUM_OBJECTIVES →
      fitnessAt (evaluate_and_repair items cap ind) o
        = includedProfit items (evaluate_and_repair items cap ind).chromosome o) ∧
    (evaluate_and_repair items cap ind).total_weight
      = includedWeight items (evaluate_and_repair items cap ind).chromosome := by
  obtain ⟨hw, hf⟩ := repair_consistent items cap ind
  refine ⟨?_, hw⟩
  intro o ho
  rw [fitnessAt, hf, getD_map_range _ ho]

/-- Witness for C2 at the concrete one-item instance. -/
theorem repair_fitness_weight_consistency_witness :
    0 < NUM_OBJECTIVES ∧
    fitnessAt (evaluate_and_repair [heavyItem] 5 heavyInd) 0
      = includedProfit [heavyItem] (evaluate_and_repair [heavyItem] 5 heavyInd).chromosome 0 :=
  ⟨by decide, (repair_fitness_weight_consistency [heavyItem] 5 heavyInd).1 0 (by decide)⟩

-- ============================================================
-- C5: roulette selection with a zero fitness sum
-- ============================================================

/-- A concrete individual with all-zero fitness carrying one item. -/
def zeroIndA : Individual :=
  { chromosome := [true], fitness := [0, 0, 0], total_weight := 10, valid := true }

/-- A concrete individual with all-zero fitness carrying nothing. -/
def zeroIndB : Individual :=
  { chromosome := [false], fitness := [0, 0, 0], total_weight := 0, valid := true }

/-- A concrete degenerate population whose fitness sum is zero. -/
def zeroPop : List Individual := [zeroIndA, zeroIndB]

/-- Counterexample for C5: on a zero-fitness-sum population the spin
range collapses, and the walk returns the first member for any draw; it
is not a uniform pick over the population. Two distinct raw engine draws
are shown, both selecting slot 0, never the distinct slot 1. -/
theorem roulette_zero_sum_counterexample :
    totalFitness zeroPop 0 = 0 ∧
    roulette_selection zeroPop 0 (drawReal 0 (totalFitness zeroPop 0) (7/3)) = zeroIndA ∧
    roulette_selection zeroPop 0 (drawReal 0 (totalFitness zeroPop 0) (1/5)) = zeroIndA ∧
    zeroIndA ≠ zeroIndB := by
  have hz : totalFitness zeroPop 0 = 0 := by
    simp [totalFitness, zeroPop, zeroIndA, zeroIndB, fitnessAt]
  have hdraw : ∀ raw : ℚ, drawReal 0 (totalFitness zeroPop 0) raw = 0 := by
    intro raw; rw [hz]; simp [drawReal]
  have hwalk : rouletteWalk 0 0 (zeroPop.getLastD default) zeroPop 0 = zeroIndA := by
    simp [zeroPop, rouletteWalk, zeroIndA, fitnessAt]
  refine ⟨hz, ?_, ?_, ?_⟩
  · rw [hdraw]; exact hwalk
  · rw [hdraw]; exact hwalk
  · simp [zeroIndA, zeroIndB]

/-- C5 amended: when the designated objective has a zero fitness sum over
a nonempty population with nonnegative fitness values, the drawn spin is
forced to 0 and roulette selection deterministically returns the first
population member; the behaviour is defined but not a uniform pick. -/
theorem roulette_zero_sum_returns_first (pop : List Individual) (obj : ℕ) (raw : ℚ)
    (hne : pop ≠ []) (hnn : ∀ ind ∈ pop, 0 ≤ fitnessAt ind obj)
    (hz : totalFitness pop obj = 0) :
    roulette_selection pop obj (drawReal 0 (totalFitness pop obj) raw)
      = pop.getD 0 default := by
  cases pop with
  | nil => exact absurd rfl hne
  | cons hd tl =>
    have hspin : drawReal 0 (totalFitness (hd :: tl) obj) raw = 0 := by
      rw [hz]; simp [drawReal]
    rw [hspin]
    have hle : (0 : ℚ) ≤ 0 + fitnessAt hd obj := by
      have := hnn hd (List.mem_cons_self hd tl)
      linarith
    show rouletteWalk obj 0 ((hd :: tl).getLastD default) (hd :: tl) 0 = _
    rw [rouletteWalk]
    simp only [if_pos hle]
    rfl

/-- Witness for C5 amended at the concrete degenerate population. -/
theorem roulette_zero_sum_returns_first_witness :
    roulette_selection zeroPop 0 (drawReal 0 (totalFitness zeroPop 0) (7/3))
      = zeroPop.getD 0 default :=
  roulette_zero_sum_returns_first zeroPop 0 (7/3) (by simp [zeroPop])
    (by simp [zeroPop, zeroIndA, zeroIndB, fitnessAt])
    (by simp [totalFitness, zeroPop, zeroIndA, zeroIndB, fitnessAt])

-- ============================================================
-- C8: selection-policy dispatch for unrecognized values
-- ============================================================

/-- A concrete all-zero raw draw sequence. -/
def zstream : ℕ → ℚ := fun _ => 0

/-- Counterexample for C8: constructing a solver with the unrecognized
selection-policy value 7 succeeds, stores the value unchanged, and the
run loop silently dispatches it to tournament selection; nothing is
rejected. -/
theorem invalid_selection_accepted_counterexample :
    (mkSolver 2 7 (1/2) (1/20) zstream).selection_method = 7 ∧
    selectParentM (mkSolver 2 7 (1/2) (1/20) zstream) 0 { stream := zstream, idx := 0 }
      = tournamentM (mkSolver 2 7 (1/2) (1/20) zstream) 0 { stream := zstream, idx := 0 } :=
  ⟨rfl, rfl⟩

/-- C8 amended: the constructor performs no validation and records any
selection-policy value; during the run, value 1 selects roulette and
every other value, valid or not, silently falls through to tournament. -/
theorem invalid_selection_defaults_to_tournament
    (items_n : ℕ) (sel : ℤ) (mrate erate : ℚ) (s : ℕ → ℚ) (obj : ℕ) (r : RNG)
    (hsel : sel ≠ 1) :
    (mkSolver items_n sel mrate erate s).selection_method = sel ∧
    selectParentM (mkSolver items_n sel mrate erate s) obj r
      = tournamentM (mkSolver items_n sel mrate erate s) obj r := by
  have hm : (mkSolver items_n sel mrate erate s).selection_method = sel := rfl
  refine ⟨hm, ?_⟩
  simp only [selectParentM, hm]
  rw [if_neg hsel]

/-- Witness for C8 amended at the concrete invalid policy value 7. -/
theorem invalid_selection_defaults_to_tournament_witness :
    (mkSolver 2 7 (1/2) (1/20) zstream).selection_method = 7 :=
  (invalid_selection_defaults_to_tournament 2 7 (1/2) (1/20) zstream 0
    { stream := zstream, idx := 0 } (by decide)).1

-- ============================================================
-- C3: the repair sort comparator on tied aggregate ratios
-- ============================================================

/-- A concrete item with aggregate ratio 3/2. -/
def twinItemA : Item := { id := 0, weight := 10, profits := [5, 5, 5], ratios := [1/2, 1/2, 1/2] }

/-- A distinct concrete item with the same aggregate ratio 3/2. -/
def twinItemB : Item := { id := 1, weight := 20, profits := [10, 10, 10], ratios := [1/2, 1/2, 1/2] }

/-- A two-item instance with tied aggregate ratios. -/
def twinItems : List Item := [twinItemA, twinItemB]

/-- C3: the comparator handed to the repair sort compares aggregate
ratios only; on the concrete tied instance it returns false in both
directions for the two distinct items, so it orders them in neither
direction and encodes no index tie-break, while the all-included vector
is over any capacity below 30 and forces a repair whose outcome depends
on the unspecified tie order. -/
theorem repair_comparator_blind_to_ties :
    repairCmp twinItems 0 1 = false ∧
    repairCmp twinItems 1 0 = false ∧
    aggRatioSum twinItems 0 = aggRatioSum twinItems 1 ∧
    twinItemA ≠ twinItemB ∧
    includedWeight twinItems [true, true] = 30 := by
  have hagg : aggRatioSum twinItems 0 = aggRatioSum twinItems 1 := by
    norm_num [aggRatioSum, NUM_OBJECTIVES, ratioAt, twinItems, twinItemA, twinItemB, List.range_succ]
  refine ⟨?_, ?_, hagg, ?_, ?_⟩
  · simp [repairCmp, hagg]
  · simp [repairCmp, hagg]
  · simp [twinItemA, twinItemB]
  · norm_num [includedWeight, itemsInBag, itemWeight, twinItems, twinItemA, twinItemB,
      List.range_succ]

-- ============================================================
-- C9: determinism of a run given the seed
-- ============================================================

/-- C9: two runs constructed with identical parameters and an identical
seed, hence an identical raw engine stream, produce identical populations
at every generation; the embedding threads the single engine through the
whole pipeline and takes no other input. -/
theorem run_deterministic_given_seed (items_n : ℕ) (sel : ℤ) (mrate erate : ℚ)
    (s1 s2 : ℕ → ℚ) (hseed : s1 = s2) :
    ∀ g, (runModel (mkSolver items_n sel mrate erate s1) g).population
      = (runModel (mkSolver items_n sel mrate erate s2) g).population := by
  subst hseed
  intro g
  rfl

/-- Witness for C9 at a concrete configuration. -/
theorem run_deterministic_given_seed_witness :
    (runModel (mkSolver 0 2 0 0 zstream) 0).population
      = (runModel (mkSolver 0 2 0 0 zstream) 0).population :=
  run_deterministic_given_seed 0 2 0 0 zstream zstream rfl 0

-- ============================================================
-- C10: the population size is pinned at 90 and padding is dead
-- ============================================================

/-- A fold whose step appends exactly k elements grows the carried list
linearly. -/
theorem foldl_length_linear {β : Type} (step : List Individual × β → ℕ → List Individual × β)
    (k : ℕ) (h : ∀ a c, ((step a c).1).length = a.1.length + k) :
    ∀ (l : List ℕ) (a : List Individual × β),
      ((l.foldl step a).1).length = a.1.length + k * l.length := by
  intro l
  induction l with
  | nil => intro a; simp
  | cons c cs ih =>
    intro a
    rw [List.foldl_cons, ih (step a c), h a c, List.length_cons]
    ring

/-- init_population builds exactly pop_size individuals. -/
theorem init_population_length (st : SolverState) :
    (init_population st).population.length = st.pop_size := by
  have h : ∀ (a : List Individual × RNG) (c : ℕ),
      (((fun (acc : List Individual × RNG) (_ : ℕ) =>
        let (chrom, r1) := genChromosome acc.2 st.num_items
        let ind := evaluate_and_repair st.items st.max_capacity
          { Individual.init st.num_items with chromosome := chrom }
        (acc.1 ++ [ind], r1)) a c).1).length = a.1.length + 1 := by
    intro a c
    cases hgc : genChromosome a.2 st.num_items with
    | mk chrom r1 => simp [hgc]
  have := foldl_length_linear _ 1 h (List.range st.pop_size) ([], st.rng)
  simpa using this

/-- One objective round appends exactly two children per needed pair. -/
theorem objectiveRound_length (st : SolverState) (obj : ℕ) (acc : List Individual × RNG) :
    ((objectiveRound st obj acc).1).length
      = acc.1.length + 2 * (st.pop_size / SUBPOP_COUNT / 2) := by
  have h : ∀ (a : List Individual × RNG) (c : ℕ),
      (((fun (a : List Individual × RNG) (_ : ℕ) =>
        let (cs, r') := breedPair st obj a.2
        (a.1 ++ [cs.1, cs.2], r')) a c).1).length = a.1.length + 2 := by
    intro a c
    cases hbp : breedPair st obj a.2 with
    | mk cs r' => simp [hbp]
  have := foldl_length_linear _ 2 h (List.range (st.pop_size / SUBPOP_COUNT / 2)) acc
  simpa [objectiveRound, Nat.mul_comm] using this

/-- The per-generation offspring buffer holds one full population worth
of children whenever pop_size is divisible by two children per pair times
the number of objectives, as it is for the fixed pop_size = 90. -/
theorem offspringPass_length (st : SolverState) :
    ((offspringPass st).1).length
      = NUM_OBJECTIVES * (2 * (st.pop_size / SUBPOP_COUNT / 2)) := by
  have h : ∀ (a : List Individual × RNG) (c : ℕ),
      (((fun (a : List Individual × RNG) (obj : ℕ) => objectiveRound st obj a) a c).1).length
        = a.1.length + 2 * (st.pop_size / SUBPOP_COUNT / 2) := by
    intro a c
    exact objectiveRound_length st c a
  have := foldl_length_linear _ (2 * (st.pop_size / SUBPOP_COUNT / 2)) h
    (List.range NUM_OBJECTIVES) ([], st.rng)
  simpa [offspringPass, Nat.mul_comm] using this

/-- The step of one generation leaves the pop_size parameter unchanged. -/
theorem stepGeneration_pop_size (st : SolverState) :
    (stepGeneration st).pop_size = st.pop_size := rfl

/-- Unrolling one generation from the run. -/
theorem runModel_succ (st : SolverState) (g : ℕ) :
    runModel st (g + 1) = stepGeneration (runModel st g) := by
  unfold runModel
  rw [List.range_succ, List.foldl_append]
  rfl

/-- The pop_size parameter is constant along the whole run. -/
theorem runModel_pop_size (st : SolverState) :
    ∀ g, (runModel st g).pop_size = st.pop_size := by
  intro g
  induction g with
  | zero => rfl
  | succ n ih => rw [runModel_succ, stepGeneration_pop_size, ih]

/-- With pop_size = 90 the offspring buffer already has length 90 before
padding, the padding loop appends nothing, and the next population again
has length 90. -/
theorem stepGeneration_pop_length (st : SolverState) (h90 : st.pop_size = 90) :
    (stepGeneration st).population.length = 90 ∧
    ((offspringPass st).1).length = 90 ∧
    padWhile st.pop_size ((offspringPass st).1) (st.population.getD 0 default)
      = (offspringPass st).1 := by
  have hlen : ((offspringPass st).1).length = 90 := by
    rw [offspringPass_length, h90]
    rfl
  refine ⟨?_, hlen, ?_⟩
  · show (padWhile st.pop_size ((offspringPass st).1) (st.population.getD 0 default)).length = 90
    rw [padWhile]
    simp [hlen, h90]
  · rw [padWhile, hlen, h90]
    simp

/-- The population length is 90 after initialization and after every
generation, given pop_size = 90. -/
theorem runModel_pop_length (st : SolverState) (h90 : st.pop_size = 90) :
    ∀ g, (runModel st g).population.length = 90 := by
  intro g
  induction g with
  | zero =>
    show (init_population st).population.length = 90
    rw [init_population_length, h90]
  | succ n ih =>
    rw [runModel_succ]
    exact (stepGeneration_pop_length (runModel st n) (by rw [runModel_pop_size st n, h90])).1

/-- C10: for every constructed run, after initialization and after every
generation the population holds exactly 90 individuals, each generation
builds an offspring buffer that already has length 90 before padding, and
the padding step that would append copies of population slot 0 leaves the
buffer unchanged, hence never executes its loop body. -/
theorem population_size_invariant (items_n : ℕ) (sel : ℤ) (mrate erate : ℚ) (s : ℕ → ℚ) :
    ∀ g, (runModel (mkSolver items_n sel mrate erate s) g).population.length = 90 ∧
      ((offspringPass (runModel (mkSolver items_n sel mrate erate s) g)).1).length = 90 ∧
      padWhile (runModel (mkSolver items_n sel mrate erate s) g).pop_size
          ((offspringPass (runModel (mkSolver items_n sel mrate erate s) g)).1)
          ((runModel (mkSolver items_n sel mrate erate s) g).population.getD 0 default)
        = (offspringPass (runModel (mkSolver items_n sel mrate erate s) g)).1 := by
  intro g
  have hmk : (mkSolver items_n sel mrate erate s).pop_size = 90 := rfl
  have h90 : (runModel (mkSolver items_n sel mrate erate s) g).pop_size = 90 := by
    rw [runModel_pop_size _ g, hmk]
  obtain ⟨_, hbuf, hpad⟩ :=
    stepGeneration_pop_length (runModel (mkSolver items_n sel mrate erate s) g) h90
  exact ⟨runModel_pop_length _ hmk g, hbuf, hpad⟩

-- ============================================================
-- Support: the generated capacity is nonnegative, so the
-- hypothesis of the capacity theorem holds on every instance
-- the constructor can build.
-- ============================================================

/-- The modelled fractional part is nonnegative. -/
theorem fracPart_nonneg (q : ℚ) : 0 ≤ fracPart q := by
  have h : fracPart q = Int.fract q := rfl
  rw [h]
  exact Int.fract_nonneg q

/-- Every drawn weight lies at or above the lower bound 10. -/
theorem drawReal_weight_nonneg (raw : ℚ) : 0 ≤ drawReal 10 100 raw := by
  have h := fracPart_nonneg raw
  rw [drawReal]
  nlinarith

/-- Elements accumulated by an appending fold are either initial or
satisfy the property of the appended items. -/
theorem foldl_forall_mem {α β γ : Type} (P : α → Prop)
    (step : List α × β → γ → List α × β)
    (h : ∀ a c x, x ∈ (step a c).1 → x ∈ a.1 ∨ P x) :
    ∀ (l : List γ) (a : List α × β), (∀ x ∈ a.1, P x) →
      ∀ x ∈ (l.foldl step a).1, P x := by
  intro l
  induction l with
  | nil => intro a ha x hx; exact ha x hx
  | cons c cs ih =>
    intro a ha x hx
    refine ih (step a c) ?_ x hx
    intro y hy
    rcases h a c y hy with h1 | h1
    · exact ha y h1
    · exact h1

/-- Every generated item has nonnegative weight. -/
theorem genItems_weight_nonneg (r : RNG) (n : ℕ) :
    ∀ it ∈ (genItems r n).1, 0 ≤ it.weight := by
  refine foldl_forall_mem (fun it : Item => 0 ≤ it.weight) _ ?_ (List.range n) ([], r) ?_
  · intro a c x hx
    revert hx
    cases hnx : RNG.next a.2 with
    | mk wraw r1 =>
      cases hgp : genProfits r1 with
      | mk ps r2 =>
        cases hgi : genItem a.2 c with
        | mk itg rg =>
          intro hx
          simp only [hgi] at hx
          rw [List.mem_append] at hx
          rcases hx with h1 | h1
          · exact Or.inl h1
          · right
            rw [List.mem_singleton] at h1
            rw [h1]
            have h2 : (genItem a.2 c).1 = itg := by rw [hgi]
            rw [← h2]
            have hw : (genItem a.2 c).1.weight = drawReal 10 100 wraw := by
              simp [genItem, hnx, hgp]
            show 0 ≤ (genItem a.2 c).1.weight
            rw [hw]
            exact drawReal_weight_nonneg wraw
  · intro x hx
    exact absurd hx (List.not_mem_nil x)

/-- The capacity derived by the constructor is nonnegative for every
item count, policy, rate and stream: the hypothesis of the capacity
invariant is met on every instance the program can build. -/
theorem mkSolver_capacity_nonneg (items_n : ℕ) (sel : ℤ) (mrate erate : ℚ) (s : ℕ → ℚ) :
    0 ≤ (mkSolver items_n sel mrate erate s).max_capacity := by
  have hcap : (mkSolver items_n sel mrate erate s).max_capacity
      = ((genItems { stream := s, idx := 0 } items_n).1.map Item.weight).sum * capacityRatio :=
    rfl
  rw [hcap, capacityRatio]
  have hsum : 0 ≤ ((genItems { stream := s, idx := 0 } items_n).1.map Item.weight).sum := by
    apply List.sum_nonneg
    intro x hx
    rw [List.mem_map] at hx
    obtain ⟨it, hit, hxe⟩ := hx
    rw [← hxe]
    exact genItems_weight_nonneg _ _ it hit
  linarith
